import Mathlib

/-!
# Toolset registration and enablement (`pkg/toolsets/mapping.go`)

A shallow embedding of the tool-name registry, the individual-tool selector
(`ParseIndividualTools`, `EnableIndividualTools`) and the enablement evaluator
(`IsToolEnabled`), followed by the properties stated for them.

Go strings are embedded as Lean `String`s (sequences of Unicode code points, the
values of well-formed UTF-8 Go strings), Go slices as `List`s, and Go maps as
association lists read through `List.lookup`, a missing key reading as the zero value.
-/

namespace Toolsets

/-! ## Data model -/

/-- Modelled from the spec: the string constants of package `toolsets` that `mapping.go`
refers to but does not declare: the "all" sentinel `All`, the three toolset names
`Registry`, `RegistryPrivate`, `Terraform`, and the reserved "individual tools" marker
`individualToolsMarker`. Their values are not fixed here; every definition below takes
them as a parameter. -/
structure Constants where
  All : String
  Registry : String
  RegistryPrivate : String
  Terraform : String
  individualToolsMarker : String
deriving DecidableEq, Repr

/-- Modelled from the spec: `ContainsToolset(list, name)`, declared outside `mapping.go`;
the spec reads it as "the list contains the name", a verbatim membership test that
ignores position. -/
def ContainsToolset : List String → String → Bool
  | [], _ => false
  | t :: rest, toolset => if t = toolset then true else ContainsToolset rest toolset

/-- The package-level table `ToolToToolset`, in source order. -/
def ToolToToolset (c : Constants) : List (String × String) :=
  [ -- Public Registry tools (providers, modules, policies)
    ("search_providers", c.Registry),
    ("get_provider_details", c.Registry),
    ("get_latest_provider_version", c.Registry),
    ("get_provider_capabilities", c.Registry),
    ("search_modules", c.Registry),
    ("get_module_details", c.Registry),
    ("get_latest_module_version", c.Registry),
    ("search_policies", c.Registry),
    ("get_policy_details", c.Registry),
    -- Private Registry tools (TFE/TFC private registry)
    ("search_private_modules", c.RegistryPrivate),
    ("get_private_module_details", c.RegistryPrivate),
    ("search_private_providers", c.RegistryPrivate),
    ("get_private_provider_details", c.RegistryPrivate),
    -- Terraform tools (TFE/TFC workspaces, runs, variables, etc.)
    ("list_terraform_orgs", c.Terraform),
    ("list_terraform_projects", c.Terraform),
    ("list_workspaces", c.Terraform),
    ("get_workspace_details", c.Terraform),
    ("create_workspace", c.Terraform),
    ("create_no_code_workspace", c.Terraform),
    ("update_workspace", c.Terraform),
    ("delete_workspace_safely", c.Terraform),
    ("list_runs", c.Terraform),
    ("get_run_details", c.Terraform),
    ("get_plan_details", c.Terraform),
    ("get_plan_logs", c.Terraform),
    ("get_plan_json_output", c.Terraform),
    ("get_apply_details", c.Terraform),
    ("get_apply_logs", c.Terraform),
    ("create_run", c.Terraform),
    ("action_run", c.Terraform),
    ("list_workspace_variables", c.Terraform),
    ("create_workspace_variable", c.Terraform),
    ("update_workspace_variable", c.Terraform),
    ("list_variable_sets", c.Terraform),
    ("create_variable_set", c.Terraform),
    ("create_variable_in_variable_set", c.Terraform),
    ("delete_variable_in_variable_set", c.Terraform),
    ("attach_variable_set_to_workspaces", c.Terraform),
    ("detach_variable_set_from_workspaces", c.Terraform),
    ("create_workspace_tags", c.Terraform),
    ("read_workspace_tags", c.Terraform),
    ("attach_policy_set_to_workspaces", c.Terraform),
    ("get_token_permissions", c.Terraform),
    ("list_stacks", c.Terraform),
    ("get_stack_details", c.Terraform),
    ("list_workspace_policy_sets", c.Terraform) ]

/-- Reading a Go `map[string]bool`: a missing key reads as the zero value `false`. -/
def mapGet (m : List (String × Bool)) (k : String) : Bool :=
  (m.lookup k).getD false

/-- Writing a Go `map[string]bool`: the newest binding of a key shadows older ones. -/
def mapSet (m : List (String × Bool)) (k : String) (v : Bool) : List (String × Bool) :=
  (k, v) :: m

/-- `GetToolsetForTool`: the comma-ok lookup `ToolToToolset[toolName]`; on a miss Go
yields the zero value `""` together with `false`. -/
def GetToolsetForTool (c : Constants) (toolName : String) : String × Bool :=
  match (ToolToToolset c).lookup toolName with
  | some toolset => (toolset, true)
  | none => ("", false)

/-- `GetAllValidToolNames`: every key of `ToolToToolset` bound to `true`. -/
def GetAllValidToolNames (c : Constants) : List (String × Bool) :=
  (ToolToToolset c).foldl (fun validTools entry => mapSet validTools entry.1 true) []

/-- `unicode.IsSpace` of the Go standard library: the Latin-1 spaces and the code
points with the Unicode `White_Space` property. -/
def isSpace (ch : Char) : Bool :=
  let n := ch.toNat
  n = 0x09 || n = 0x0A || n = 0x0B || n = 0x0C || n = 0x0D || n = 0x20 ||
  n = 0x85 || n = 0xA0 || n = 0x1680 || (0x2000 ≤ n && n ≤ 0x200A) ||
  n = 0x2028 || n = 0x2029 || n = 0x202F || n = 0x205F || n = 0x3000

/-- Drop the trailing characters of a list that satisfy `isSpace`. -/
def trimRight (l : List Char) : List Char :=
  ((l.reverse).dropWhile isSpace).reverse

/-- `strings.TrimSpace` of the Go standard library: the string without its leading and
trailing white space. -/
def TrimSpace (s : String) : String :=
  ⟨trimRight (s.data.dropWhile isSpace)⟩

/-- The loop state of `ParseIndividualTools`: the `seen` set and the two output slices. -/
structure ParseState where
  seen : List (String × Bool)
  valid : List String
  invalid : List String
deriving DecidableEq, Repr

/-- One iteration of the `for _, name := range toolNames` loop of `ParseIndividualTools`. -/
def parseStep (validToolNames : List (String × Bool)) (st : ParseState) (name : String) :
    ParseState :=
  let trimmed := TrimSpace name
  if trimmed = "" then st
  else if !mapGet st.seen trimmed then
    let seen := mapSet st.seen trimmed true
    if mapGet validToolNames trimmed then
      { seen := seen, valid := st.valid ++ [trimmed], invalid := st.invalid }
    else
      { seen := seen, valid := st.valid, invalid := st.invalid ++ [trimmed] }
  else st

/-- `ParseIndividualTools`: the validated tool names and the invalid ones. -/
def ParseIndividualTools (c : Constants) (toolNames : List String) :
    List String × List String :=
  let validToolNames := GetAllValidToolNames c
  let st := toolNames.foldl (parseStep validToolNames) { seen := [], valid := [], invalid := [] }
  (st.valid, st.invalid)

/-- `EnableIndividualTools`: the marker appended to an empty slice, then the tool names. -/
def EnableIndividualTools (c : Constants) (toolNames : List String) : List String :=
  ([] ++ [c.individualToolsMarker]) ++ toolNames

/-- `IsToolEnabled`: whether a tool is enabled under the enabled-toolset list. -/
def IsToolEnabled (c : Constants) (toolName : String) (enabledToolsets : List String) : Bool :=
  if ContainsToolset enabledToolsets c.All then true
  else if ContainsToolset enabledToolsets c.individualToolsMarker then
    ContainsToolset enabledToolsets toolName
  else
    match GetToolsetForTool c toolName with
    | (_, false) => false
    | (toolset, true) => ContainsToolset enabledToolsets toolset

/-- Constants used to evaluate the definitions on concrete inputs: the "all" sentinel and
the toolset names as the spec spells them, and stand-ins for the two names it leaves
unspelled. -/
def sampleConstants : Constants :=
  { All := "all", Registry := "Registry", RegistryPrivate := "RegistryPrivate",
    Terraform := "Terraform", individualToolsMarker := "individual-tools-marker" }

/-- The keys of `ToolToToolset`: the registered tool names. -/
def toolNames (c : Constants) : List String :=
  (ToolToToolset c).map Prod.fst

/-! ## The selector as the specification words it -/

/-- A list with only the first occurrence of each element kept, in order of first
occurrence. -/
def firstOccurrences : List String → List String
  | [] => []
  | x :: xs => x :: (firstOccurrences xs).filter (fun y => decide (y ≠ x))

/-- The raw names, each trimmed of surrounding white space, without the empty results. -/
def nonBlankNames (rawNames : List String) : List String :=
  (rawNames.map TrimSpace).filter (fun s => decide (s ≠ ""))

/-- The list `D` of the specification of `parseToolNames`: trim every raw name, drop the
empty results, keep the first occurrence of each remaining name. -/
def normalizedNames (rawNames : List String) : List String :=
  firstOccurrences (nonBlankNames rawNames)

/-- The specification of `parseToolNames`: the names of `D` that are registered and the
names of `D` that are not, both in the order of `D`. -/
def parseToolNamesSpec (c : Constants) (rawNames : List String) : List String × List String :=
  ((normalizedNames rawNames).filter (fun s => decide (s ∈ toolNames c)),
   (normalizedNames rawNames).filter (fun s => decide (s ∉ toolNames c)))

end Toolsets

/-! # The tool-definition library (`github.com/mark3labs/mcp-go/mcp`)

The part of the library that the tool constructors and handlers of package `tools`
call: tool values built by `NewTool` from options, and the typed accessors of a
tool-call request. A Go `map[string]any` is an association list whose newest
binding shadows older ones. -/

namespace Mcp

/-- A JSON value held under `any`: a tool-call argument or an entry of a property schema. -/
inductive Value where
  | null
  | bool (b : Bool)
  | number (n : Int)
  | string (s : String)
  | strings (items : List String)
  | array (items : List Value)
  | object (fields : List (String × Value))

/-- `mcp.ToolAnnotation`: the hints are pointers, `none` being the nil pointer. -/
structure ToolAnnotation where
  Title : String
  ReadOnlyHint : Option Bool
  DestructiveHint : Option Bool
  IdempotentHint : Option Bool
  OpenWorldHint : Option Bool

/-- `mcp.ToolInputSchema`; `Type_` is the Go field `Type`. -/
structure ToolInputSchema where
  Type_ : String
  Properties : List (String × List (String × Value))
  Required : List String

/-- `mcp.Tool`. -/
structure Tool where
  Name : String
  Description : String
  InputSchema : ToolInputSchema
  Annotations : ToolAnnotation

/-- `mcp.ToolOption`: a function that configures a tool. -/
abbrev ToolOption := Tool → Tool

/-- `mcp.PropertyOption`: a function that configures a property schema. -/
abbrev PropertyOption := List (String × Value) → List (String × Value)

/-- `mcp.NewTool`: the defaults of a new tool, then the options in order. -/
def NewTool (name : String) (opts : List ToolOption) : Tool :=
  opts.foldl (fun tool opt => opt tool)
    { Name := name,
      Description := "",
      InputSchema := { Type_ := "object", Properties := [], Required := [] },
      Annotations :=
        { Title := "", ReadOnlyHint := some false, DestructiveHint := some true,
          IdempotentHint := some false, OpenWorldHint := some true } }

/-- `mcp.WithDescription`. -/
def WithDescription (description : String) : ToolOption :=
  fun t => { t with Description := description }

/-- `mcp.WithTitleAnnotation`. -/
def WithTitleAnnotation (title : String) : ToolOption :=
  fun t => { t with Annotations := { t.Annotations with Title := title } }

/-- `mcp.WithReadOnlyHintAnnotation`. -/
def WithReadOnlyHintAnnotation (value : Bool) : ToolOption :=
  fun t => { t with Annotations := { t.Annotations with ReadOnlyHint := some value } }

/-- `mcp.WithDestructiveHintAnnotation`. -/
def WithDestructiveHintAnnotation (value : Bool) : ToolOption :=
  fun t => { t with Annotations := { t.Annotations with DestructiveHint := some value } }

/-- `mcp.Required`: marks the property schema as required. -/
def Required : PropertyOption :=
  fun schema => ("required", Value.bool true) :: schema

/-- `mcp.Description`: the description of a property. -/
def Description (desc : String) : PropertyOption :=
  fun schema => ("description", Value.string desc) :: schema

/-- `mcp.WithStringEnumItems`: the items of an array property are strings of an enum. -/
def WithStringEnumItems (values : List String) : PropertyOption :=
  fun schema =>
    ("items", Value.object [("type", Value.string "string"), ("enum", Value.strings values)])
      :: schema

/-- The common body of `mcp.WithString` and `mcp.WithArray`: a property schema of the
given type, configured by the options; a `required` flag set to true is taken out of the
schema and the property name appended to the required names of the tool. -/
def withProperty (kind name : String) (opts : List PropertyOption) : ToolOption :=
  fun t =>
    let schema := opts.foldl (fun schema opt => opt schema) [("type", Value.string kind)]
    match schema.lookup "required" with
    | some (Value.bool true) =>
      { t with
        InputSchema :=
          { t.InputSchema with
            Required := t.InputSchema.Required ++ [name],
            Properties :=
              (name, schema.filter (fun entry => entry.1 != "required"))
                :: t.InputSchema.Properties } }
    | _ =>
      { t with
        InputSchema :=
          { t.InputSchema with Properties := (name, schema) :: t.InputSchema.Properties } }

/-- `mcp.WithString`: a string property. -/
def WithString (name : String) (opts : List PropertyOption) : ToolOption :=
  withProperty "string" name opts

/-- `mcp.WithArray`: an array property. -/
def WithArray (name : String) (opts : List PropertyOption) : ToolOption :=
  withProperty "array" name opts

/-- `mcp.CallToolRequest`, reduced to its arguments. -/
structure CallToolRequest where
  Arguments : List (String × Value)

/-- `CallToolRequest.GetString`: the argument when it is present and a string, the
default value otherwise. -/
def CallToolRequest.GetString (r : CallToolRequest) (key defaultValue : String) : String :=
  match r.Arguments.lookup key with
  | some (Value.string str) => str
  | _ => defaultValue

/-- `CallToolRequest.RequireString`: the argument when it is present and a string, an
error otherwise. -/
def CallToolRequest.RequireString (r : CallToolRequest) (key : String) : Except String String :=
  match r.Arguments.lookup key with
  | some (Value.string str) => Except.ok str
  | some _ => Except.error ("argument \"" ++ key ++ "\" is not a string")
  | none => Except.error ("required argument \"" ++ key ++ "\" not found")

end Mcp

/-! # The run, plan and apply tools (`pkg/tools/tfe`)

A handler is a function of the request and of its collaborators; what it hands to the
remote API is recorded as the list of remote calls it makes, in order. The logger
argument only receives log lines and is left out. -/

namespace Tools

open Mcp

/-- `tfe.ListOptions` of the go-tfe client. -/
structure ListOptions where
  PageNumber : Int
  PageSize : Int
deriving DecidableEq, Repr

/-- `tfe.RunListOptions`, with the fields the handler sets; the others keep their zero
value. -/
structure RunListOptions where
  ListOptions : ListOptions
  User : String
  Status : String
deriving DecidableEq, Repr

/-- `tfe.RunListForOrganizationOptions`, with the fields the handler sets. -/
structure RunListForOrganizationOptions where
  ListOptions : ListOptions
  User : String
  Status : String
deriving DecidableEq, Repr

/-- The pagination descriptor returned by `utils.OptionalPaginationParams`. -/
structure PaginationParams where
  Page : Int
  PageSize : Int
deriving DecidableEq, Repr

/-- A call on the remote API client, with its arguments. -/
inductive RemoteCall where
  | WorkspacesRead (organization workspace : String)
  | RunsList (workspaceID : String) (options : RunListOptions)
  | RunsListForOrganization (organization : String) (options : RunListForOrganizationOptions)
  | AppliesLogs (applyID : String)
  | PlansRead (planID : String)
deriving DecidableEq, Repr

/-- Modelled from the spec: the collaborators of a handler, which are declared outside
`pkg/tools/tfe` and taken as parameters: the pagination helper ("parses optional
page/page-size parameters from a request into a validated pagination descriptor"),
whether a remote client is available for the context, the answers of the remote API
(`none` for a failed call), and the encoding of an answer into the textual payload (an
error carries the message of the step that failed). -/
structure Collaborators where
  OptionalPaginationParams : CallToolRequest → Option PaginationParams
  clientAvailable : Bool
  workspacesRead : String → String → Option String
  runsList : String → RunListOptions → Option String
  runsListForOrganization : String → RunListForOrganizationOptions → Option String
  encodeRuns : String → Except String String
  appliesLogs : String → Option (Option String)
  plansRead : String → Option String
  marshalPlan : String → Option String

/-- What a handler did: the remote calls it made and the tool result, `ok` with the text
payload or `error` with the message given to `ToolError` or `ToolErrorf`. -/
structure Outcome where
  calls : List RemoteCall
  result : Except String String
deriving Repr

/-- `server.ServerTool`: the tool and its handler, `none` being the nil function. -/
structure ServerTool where
  Tool : Mcp.Tool
  Handler : Option (Collaborators → CallToolRequest → Outcome)

/-- `listRunsHandler`. -/
def listRunsHandler (ctx : Collaborators) (request : CallToolRequest) : Outcome :=
  match request.RequireString "terraform_org_name" with
  | Except.error _ => ⟨[], Except.error "missing required input: terraform_org_name"⟩
  | Except.ok orgName =>
    let terraformOrgName := Toolsets.TrimSpace orgName
    let workspaceName := request.GetString "workspace_name" ""
    let vcsUsername := request.GetString "vcs_username" ""
    let status := request.GetString "status" ""
    match ctx.OptionalPaginationParams request with
    | none => ⟨[], Except.error "invalid pagination parameters"⟩
    | some pagination =>
      if !ctx.clientAvailable then ⟨[], Except.error "failed to get Terraform client"⟩
      else if workspaceName ≠ "" then
        let options : RunListOptions :=
          { ListOptions := { PageNumber := pagination.Page, PageSize := pagination.PageSize },
            User := "", Status := "" }
        let options := if status ≠ "" then { options with Status := status } else options
        let options := if vcsUsername ≠ "" then { options with User := vcsUsername } else options
        match ctx.workspacesRead terraformOrgName workspaceName with
        | none =>
          ⟨[RemoteCall.WorkspacesRead terraformOrgName workspaceName],
            Except.error ("workspace \x27" ++ workspaceName ++ "\x27 not found in org \x27"
              ++ terraformOrgName ++ "\x27")⟩
        | some workspaceID =>
          match ctx.runsList workspaceID options with
          | none =>
            ⟨[RemoteCall.WorkspacesRead terraformOrgName workspaceName,
              RemoteCall.RunsList workspaceID options],
              Except.error "failed to list runs in workspace"⟩
          | some runs =>
            ⟨[RemoteCall.WorkspacesRead terraformOrgName workspaceName,
              RemoteCall.RunsList workspaceID options], ctx.encodeRuns runs⟩
      else
        let options : RunListForOrganizationOptions :=
          { ListOptions := { PageNumber := pagination.Page, PageSize := pagination.PageSize },
            User := "", Status := "" }
        let options := if status ≠ "" then { options with Status := status } else options
        let options := if vcsUsername ≠ "" then { options with User := vcsUsername } else options
        match ctx.runsListForOrganization terraformOrgName options with
        | none =>
          ⟨[RemoteCall.RunsListForOrganization terraformOrgName options],
            Except.error ("failed to list runs in org \x27" ++ terraformOrgName ++ "\x27")⟩
        | some runs =>
          ⟨[RemoteCall.RunsListForOrganization terraformOrgName options], ctx.encodeRuns runs⟩

/-- The options of `ListRuns` that precede `utils.WithPagination()`. -/
def listRunsToolOptions : List ToolOption :=
  [ WithDescription
      "List or search Terraform runs in a specific workspace with optional filtering.",
    WithTitleAnnotation "List Terraform runs",
    WithReadOnlyHintAnnotation true,
    WithDestructiveHintAnnotation false,
    WithString "terraform_org_name"
      [Required,
       Description "Lists the runs in Terraform Cloud/Enterprise organization based on filters if no workspace is specified"],
    WithString "workspace_name"
      [Description "If specified, lists the runs in the given workspace instead of the organization based on filters"],
    WithString "vcs_username"
      [Description "Searches for runs that match the VCS username you supply"],
    WithArray "status"
      [Description "Optional run status filter",
       WithStringEnumItems
        ["pending", "fetching", "fetching_completed", "pre_plan_running",
         "pre_plan_completed", "queuing", "plan_queued", "planning", "planned",
         "cost_estimating", "cost_estimated", "policy_checking", "policy_override",
         "policy_soft_failed", "policy_checked", "confirmed", "post_plan_running",
         "post_plan_completed", "planned_and_finished", "planned_and_saved", "apply_queued",
         "applying", "applied", "discarded", "errored", "canceled", "force_canceled"]] ]

/-- `ListRuns`; the tool option `utils.WithPagination()` is declared outside
`pkg/tools/tfe` and taken as a parameter. -/
def ListRuns (withPagination : ToolOption) : ServerTool :=
  { Tool := NewTool "list_runs" (listRunsToolOptions ++ [withPagination]),
    Handler := some (fun ctx req => listRunsHandler ctx req) }

/-- `getApplyLogsHandler`. -/
def getApplyLogsHandler (ctx : Collaborators) (request : CallToolRequest) : Outcome :=
  match request.RequireString "apply_id" with
  | Except.error _ => ⟨[], Except.error "missing required input: apply_id"⟩
  | Except.ok applyID =>
    if !ctx.clientAvailable then ⟨[], Except.error "failed to get Terraform client"⟩
    else
      match ctx.appliesLogs applyID with
      | none =>
        ⟨[RemoteCall.AppliesLogs applyID],
          Except.error ("failed to retrieve apply logs: " ++ applyID)⟩
      | some none => ⟨[RemoteCall.AppliesLogs applyID], Except.error "failed to read apply logs"⟩
      | some (some logBytes) => ⟨[RemoteCall.AppliesLogs applyID], Except.ok logBytes⟩

/-- `GetApplyLogs`. -/
def GetApplyLogs : ServerTool :=
  { Tool := NewTool "get_apply_logs"
      [ WithDescription "Retrieves the logs of a specific Terraform apply.",
        WithTitleAnnotation "Get logs for a Terraform apply",
        WithReadOnlyHintAnnotation true,
        WithDestructiveHintAnnotation false,
        WithString "apply_id" [Required, Description "The ID of the apply to get logs for"] ],
    Handler := some (fun ctx req => getApplyLogsHandler ctx req) }

/-- `getPlanDetailsHandler`. -/
def getPlanDetailsHandler (ctx : Collaborators) (request : CallToolRequest) : Outcome :=
  match request.RequireString "plan_id" with
  | Except.error _ => ⟨[], Except.error "missing required input: plan_id"⟩
  | Except.ok planID =>
    if !ctx.clientAvailable then ⟨[], Except.error "failed to get Terraform client"⟩
    else
      match ctx.plansRead planID with
      | none => ⟨[RemoteCall.PlansRead planID], Except.error ("plan not found: " ++ planID)⟩
      | some plan =>
        match ctx.marshalPlan plan with
        | none => ⟨[RemoteCall.PlansRead planID], Except.error "failed to marshal plan details"⟩
        | some text => ⟨[RemoteCall.PlansRead planID], Except.ok text⟩

/-- `GetPlanDetails`. -/
def GetPlanDetails : ServerTool :=
  { Tool := NewTool "get_plan_details"
      [ WithDescription "Fetches detailed information about a specific Terraform plan.",
        WithTitleAnnotation "Get detailed information about a Terraform plan",
        WithReadOnlyHintAnnotation true,
        WithDestructiveHintAnnotation false,
        WithString "plan_id" [Required, Description "The ID of the plan to get details for"] ],
    Handler := some (fun ctx req => getPlanDetailsHandler ctx req) }

/-- The status filter handed to the remote API by a call that lists runs. -/
def RemoteCall.listStatus : RemoteCall → Option String
  | RemoteCall.RunsList _ options => some options.Status
  | RemoteCall.RunsListForOrganization _ options => some options.Status
  | _ => none

/-- The user filter handed to the remote API by a call that lists runs. -/
def RemoteCall.listUser : RemoteCall → Option String
  | RemoteCall.RunsList _ options => some options.User
  | RemoteCall.RunsListForOrganization _ options => some options.User
  | _ => none

/-- Collaborators used to evaluate the handlers on concrete requests: no pagination
arguments (page 0, size 0), a client, and a remote API that answers every call. -/
def sampleCollaborators : Collaborators :=
  { OptionalPaginationParams := fun _ => some { Page := 0, PageSize := 0 },
    clientAvailable := true,
    workspacesRead := fun _ workspace => some ("ws-" ++ workspace),
    runsList := fun _ _ => some "runs",
    runsListForOrganization := fun _ _ => some "runs",
    encodeRuns := fun runs => Except.ok runs,
    appliesLogs := fun _ => some (some "logs"),
    plansRead := fun _ => some "plan",
    marshalPlan := fun plan => some plan }

end Tools

namespace Toolsets

/-! ## Lookup lemmas -/

theorem ContainsToolset_iff (l : List String) (x : String) :
    ContainsToolset l x = true ↔ x ∈ l := by
  induction l with
  | nil => simp [ContainsToolset]
  | cons a rest ih =>
    by_cases h : a = x
    · simp [ContainsToolset, h]
    · have h2 : ¬ x = a := fun e => h e.symm
      simp [ContainsToolset, h, h2, ih]

theorem ContainsToolset_false_iff (l : List String) (x : String) :
    ContainsToolset l x = false ↔ x ∉ l := by
  rw [← ContainsToolset_iff]; simp

theorem lookup_isSome_iff_mem_keys (m : List (String × String)) (k : String) :
    (m.lookup k).isSome = true ↔ k ∈ m.map Prod.fst := by
  induction m with
  | nil => simp
  | cons p rest ih =>
    obtain ⟨a, b⟩ := p
    by_cases h : k = a
    · simp [List.lookup_cons, h]
    · have hb : (k == a) = false := by simpa using h
      simp [List.lookup_cons, h, hb]

theorem lookup_some_mem_values (m : List (String × String)) (k v : String)
    (h : m.lookup k = some v) : v ∈ m.map Prod.snd := by
  induction m with
  | nil => simp at h
  | cons p rest ih =>
    obtain ⟨a, b⟩ := p
    by_cases hk : k = a
    · simp [List.lookup_cons, hk] at h
      simp [h]
    · have hb : (k == a) = false := by simpa using hk
      simp only [List.lookup_cons, hb] at h
      simp only [List.map_cons, List.mem_cons]
      exact Or.inr (ih h)

theorem toolset_values (c : Constants) (v : String) (h : v ∈ (ToolToToolset c).map Prod.snd) :
    v ∈ [c.Registry, c.RegistryPrivate, c.Terraform] := by
  simp only [ToolToToolset, List.map_cons, List.map_nil, List.mem_cons, List.mem_singleton] at h
  simp only [List.mem_cons, List.mem_singleton]
  tauto

theorem GetToolsetForTool_eq (c : Constants) (t : String) :
    GetToolsetForTool c t =
      (((ToolToToolset c).lookup t).getD "", ((ToolToToolset c).lookup t).isSome) := by
  unfold GetToolsetForTool
  cases (ToolToToolset c).lookup t <;> rfl

theorem mapGet_foldl_mapSet (l : List (String × String)) (init : List (String × Bool))
    (k : String) :
    mapGet (l.foldl (fun validTools entry => mapSet validTools entry.1 true) init) k = true ↔
      k ∈ l.map Prod.fst ∨ mapGet init k = true := by
  induction l generalizing init with
  | nil => simp
  | cons p rest ih =>
    rw [List.foldl_cons, ih]
    by_cases h : k = p.1
    · simp [mapGet, mapSet, List.lookup_cons, h]
    · have hb : (k == p.1) = false := by simpa using h
      simp [mapGet, mapSet, List.lookup_cons, h, hb]

theorem mapGet_GetAllValidToolNames (c : Constants) (k : String) :
    mapGet (GetAllValidToolNames c) k = true ↔ k ∈ toolNames c := by
  unfold GetAllValidToolNames toolNames
  rw [mapGet_foldl_mapSet]
  simp [mapGet]

theorem GetToolsetForTool_found_iff (c : Constants) (t : String) :
    (GetToolsetForTool c t).2 = true ↔ t ∈ toolNames c := by
  rw [GetToolsetForTool_eq]
  exact lookup_isSome_iff_mem_keys (ToolToToolset c) t

theorem IsToolEnabled_toolsets (c : Constants) (t : String) (l : List String)
    (ha : c.All ∉ l) (hm : c.individualToolsMarker ∉ l) :
    IsToolEnabled c t l = true ↔
      ∃ toolset, (ToolToToolset c).lookup t = some toolset ∧ toolset ∈ l := by
  have h1 := (ContainsToolset_false_iff l c.All).2 ha
  have h2 := (ContainsToolset_false_iff l c.individualToolsMarker).2 hm
  unfold IsToolEnabled
  rw [h1, h2, GetToolsetForTool_eq]
  cases hl : (ToolToToolset c).lookup t with
  | none => simp
  | some v => simp [ContainsToolset_iff]

theorem IsToolEnabled_marker (c : Constants) (t : String) (l : List String)
    (hm : c.individualToolsMarker ∈ l) (ha : c.All ∉ l) :
    IsToolEnabled c t l = true ↔ t ∈ l := by
  have h1 := (ContainsToolset_false_iff l c.All).2 ha
  have h2 := (ContainsToolset_iff l c.individualToolsMarker).2 hm
  unfold IsToolEnabled
  rw [h1, h2]
  simp [ContainsToolset_iff]

/-! ## The enablement evaluator -/

/-- C1: whenever the enabled list contains the "all" sentinel `All`, `IsToolEnabled`
returns true for every tool name, registered or not, whatever else the list holds; in
particular `IsToolEnabled t [All]` is true for every string `t`. -/
theorem IsToolEnabled_all (c : Constants) (toolName : String) (enabledList : List String)
    (h : c.All ∈ enabledList) :
    IsToolEnabled c toolName enabledList = true ∧ IsToolEnabled c toolName [c.All] = true := by
  have h1 := (ContainsToolset_iff enabledList c.All).2 h
  constructor
  · unfold IsToolEnabled
    rw [h1]; rfl
  · simp [IsToolEnabled, ContainsToolset]

theorem IsToolEnabled_all_witness :
    "all" ∈ ["Terraform", "individual-tools-marker", "all"] ∧
    IsToolEnabled sampleConstants "not_a_tool" ["Terraform", "individual-tools-marker", "all"]
      = true ∧
    IsToolEnabled sampleConstants "not_a_tool" ["all"] = true :=
  ⟨by decide,
   IsToolEnabled_all sampleConstants "not_a_tool" ["Terraform", "individual-tools-marker", "all"]
     (by decide)⟩

/-- C2: when the enabled list contains the individual-tools marker and not the "all"
sentinel, `IsToolEnabled` is true exactly when the tool name itself is an element of the
list, at any position; the registry is not consulted. -/
theorem IsToolEnabled_individual (c : Constants) (toolName : String)
    (enabledList : List String) (hm : c.individualToolsMarker ∈ enabledList)
    (ha : c.All ∉ enabledList) :
    IsToolEnabled c toolName enabledList = true ↔ toolName ∈ enabledList :=
  IsToolEnabled_marker c toolName enabledList hm ha

theorem IsToolEnabled_individual_witness :
    (IsToolEnabled sampleConstants "list_runs"
        ["Terraform", "not_a_tool", "individual-tools-marker"] = true ↔
      "list_runs" ∈ ["Terraform", "not_a_tool", "individual-tools-marker"]) ∧
    (IsToolEnabled sampleConstants "not_a_tool"
        ["Terraform", "not_a_tool", "individual-tools-marker"] = true ↔
      "not_a_tool" ∈ ["Terraform", "not_a_tool", "individual-tools-marker"]) :=
  ⟨IsToolEnabled_individual sampleConstants "list_runs"
      ["Terraform", "not_a_tool", "individual-tools-marker"] (by decide) (by decide),
   IsToolEnabled_individual sampleConstants "not_a_tool"
      ["Terraform", "not_a_tool", "individual-tools-marker"] (by decide) (by decide)⟩

/-- C3: when the enabled list contains neither the "all" sentinel nor the
individual-tools marker, `IsToolEnabled` is true exactly when the tool name is a key of
`ToolToToolset` and the toolset it maps to is an element of the list. Consequently
`IsToolEnabled t []` is false for every `t`, and, the constants being pairwise distinct,
a tool registered in the Terraform toolset is enabled by `[Terraform]` and not by
`[Registry]`. -/
theorem IsToolEnabled_by_toolset (c : Constants) (toolName : String) :
    (∀ enabledList : List String, c.All ∉ enabledList →
      c.individualToolsMarker ∉ enabledList →
      (IsToolEnabled c toolName enabledList = true ↔
        ∃ toolset, (ToolToToolset c).lookup toolName = some toolset ∧
          toolset ∈ enabledList)) ∧
    IsToolEnabled c toolName [] = false ∧
    ([c.All, c.individualToolsMarker, c.Registry, c.Terraform].Nodup →
      (ToolToToolset c).lookup toolName = some c.Terraform →
      IsToolEnabled c toolName [c.Terraform] = true ∧
        IsToolEnabled c toolName [c.Registry] = false) := by
  refine ⟨fun l ha hm => IsToolEnabled_toolsets c toolName l ha hm, ?_, ?_⟩
  · have h := IsToolEnabled_toolsets c toolName [] (by simp) (by simp)
    cases hb : IsToolEnabled c toolName [] with
    | false => rfl
    | true => simp [hb] at h
  · intro hd hreg
    simp only [List.nodup_cons, List.mem_cons, List.mem_singleton, not_or, List.not_mem_nil,
      not_false_eq_true, List.nodup_nil, and_true] at hd
    obtain ⟨⟨_, hAR, hAT⟩, ⟨hMR, hMT⟩, hRT⟩ := hd
    constructor
    · rw [IsToolEnabled_toolsets c toolName [c.Terraform] (by simpa using hAT)
        (by simpa using hMT)]
      exact ⟨c.Terraform, hreg, by simp⟩
    · have h := IsToolEnabled_toolsets c toolName [c.Registry] (by simpa using hAR)
        (by simpa using hMR)
      cases hb : IsToolEnabled c toolName [c.Registry] with
      | false => rfl
      | true =>
        obtain ⟨ts, hts, hmem⟩ := h.1 hb
        rw [hreg] at hts
        simp only [List.mem_singleton] at hmem
        injection hts with hts
        exact absurd (hts.trans hmem).symm hRT

theorem IsToolEnabled_by_toolset_witness :
    (IsToolEnabled sampleConstants "list_runs" ["RegistryPrivate", "Terraform"] = true ↔
      ∃ toolset, (ToolToToolset sampleConstants).lookup "list_runs" = some toolset ∧
        toolset ∈ ["RegistryPrivate", "Terraform"]) ∧
    (IsToolEnabled sampleConstants "list_runs" ["Terraform"] = true ∧
      IsToolEnabled sampleConstants "list_runs" ["Registry"] = false) :=
  ⟨(IsToolEnabled_by_toolset sampleConstants "list_runs").1 ["RegistryPrivate", "Terraform"]
      (by decide) (by decide),
   (IsToolEnabled_by_toolset sampleConstants "list_runs").2.2 (by decide) (by decide)⟩

/-! ## The registry lookup and the mode list -/

/-- C9: `GetToolsetForTool t` reports `found = true` exactly when `t` is a key of
`ToolToToolset`, which is exactly when `GetAllValidToolNames()[t]` is true; for a
registered `t` the returned toolset is one of the constants `Registry`,
`RegistryPrivate`, `Terraform` and, these being non-empty, is non-empty; for an
unregistered `t` the result is the empty string with `found = false`. -/
theorem GetToolsetForTool_spec (c : Constants) (t : String)
    (hne : c.Registry ≠ "" ∧ c.RegistryPrivate ≠ "" ∧ c.Terraform ≠ "") :
    ((GetToolsetForTool c t).2 = true ↔ t ∈ toolNames c) ∧
    (t ∈ toolNames c ↔ mapGet (GetAllValidToolNames c) t = true) ∧
    (t ∈ toolNames c →
      (GetToolsetForTool c t).1 ∈ [c.Registry, c.RegistryPrivate, c.Terraform] ∧
        (GetToolsetForTool c t).1 ≠ "") ∧
    (t ∉ toolNames c → GetToolsetForTool c t = ("", false)) := by
  refine ⟨GetToolsetForTool_found_iff c t, (mapGet_GetAllValidToolNames c t).symm, ?_, ?_⟩
  · intro hreg
    have hsome := (lookup_isSome_iff_mem_keys (ToolToToolset c) t).2 hreg
    rw [GetToolsetForTool_eq]
    cases hl : (ToolToToolset c).lookup t with
    | none => simp [hl] at hsome
    | some v =>
      have hv := toolset_values c v (lookup_some_mem_values _ t v hl)
      refine ⟨by simpa using hv, ?_⟩
      simp only [List.mem_cons, List.mem_singleton, List.not_mem_nil, or_false] at hv
      obtain ⟨h1, h2, h3⟩ := hne
      rcases hv with hv | hv | hv <;> simp [hv, h1, h2, h3]
  · intro hreg
    have hnone : ¬ ((ToolToToolset c).lookup t).isSome = true :=
      fun h => hreg ((lookup_isSome_iff_mem_keys (ToolToToolset c) t).1 h)
    rw [GetToolsetForTool_eq]
    cases hl : (ToolToToolset c).lookup t with
    | none => rfl
    | some v => simp [hl] at hnone

theorem GetToolsetForTool_spec_witness :
    (sampleConstants.Registry ≠ "" ∧ sampleConstants.RegistryPrivate ≠ "" ∧
      sampleConstants.Terraform ≠ "") ∧
    GetToolsetForTool sampleConstants "search_private_modules" = ("RegistryPrivate", true) ∧
    GetToolsetForTool sampleConstants "not_a_tool" = ("", false) ∧
    (("search_private_modules" ∈ toolNames sampleConstants →
      (GetToolsetForTool sampleConstants "search_private_modules").1 ∈
          [sampleConstants.Registry, sampleConstants.RegistryPrivate,
            sampleConstants.Terraform] ∧
        (GetToolsetForTool sampleConstants "search_private_modules").1 ≠ "")) :=
  ⟨by decide, by decide, by decide,
   (GetToolsetForTool_spec sampleConstants "search_private_modules" (by decide)).2.2.1⟩

/-- C10: `EnableIndividualTools toolNames` is the individual-tools marker followed by the
elements of `toolNames`, unchanged and in the same order, with nothing trimmed,
deduplicated or validated; its length is the length of `toolNames` plus one. -/
theorem EnableIndividualTools_spec (c : Constants) (toolNames : List String) :
    EnableIndividualTools c toolNames = c.individualToolsMarker :: toolNames ∧
    (EnableIndividualTools c toolNames).head? = some c.individualToolsMarker ∧
    (EnableIndividualTools c toolNames).tail = toolNames ∧
    (EnableIndividualTools c toolNames).length = toolNames.length + 1 := by
  simp [EnableIndividualTools]

/-! ## White-space trimming -/

theorem string_eq_empty_iff (s : String) : s = "" ↔ s.data = [] := by
  constructor
  · intro h; rw [h]
  · intro h; exact String.ext h

theorem trimRight_eq_rdropWhile (l : List Char) : trimRight l = l.rdropWhile isSpace := rfl

theorem dropWhile_trimRight_dropWhile (l : List Char) :
    (trimRight (l.dropWhile isSpace)).dropWhile isSpace = trimRight (l.dropWhile isSpace) := by
  cases hm : l.dropWhile isSpace with
  | nil => rfl
  | cons a m =>
    have ha : ¬ isSpace a = true := by
      have hlen : 0 < (l.dropWhile isSpace).length := by rw [hm]; simp
      have h0 := List.dropWhile_get_zero_not isSpace l hlen
      simpa [hm] using h0
    have hpre : trimRight (a :: m) <+: a :: m := List.rdropWhile_prefix isSpace _
    cases hT : trimRight (a :: m) with
    | nil => rfl
    | cons b T =>
      rw [hT] at hpre
      obtain ⟨tl, htl⟩ := hpre
      have hb : b = a := by
        simp only [List.cons_append, List.cons.injEq] at htl
        exact htl.1
      rw [hb]
      exact List.dropWhile_cons_of_neg ha

theorem TrimSpace_idempotent (s : String) : TrimSpace (TrimSpace s) = TrimSpace s := by
  apply String.ext
  show trimRight ((trimRight (s.data.dropWhile isSpace)).dropWhile isSpace)
    = trimRight (s.data.dropWhile isSpace)
  rw [dropWhile_trimRight_dropWhile]
  exact List.rdropWhile_idempotent isSpace _

theorem TrimSpace_has_nonspace (r : String) (h : TrimSpace r ≠ "") :
    ∃ ch ∈ (TrimSpace r).data, isSpace ch = false := by
  have hne : trimRight (r.data.dropWhile isSpace) ≠ [] := by
    intro hnil
    exact h ((string_eq_empty_iff _).2 hnil)
  have hlast := List.rdropWhile_last_not isSpace (r.data.dropWhile isSpace) hne
  refine ⟨(trimRight (r.data.dropWhile isSpace)).getLast hne, List.getLast_mem hne, ?_⟩
  simpa using hlast

/-! ## First occurrences -/

theorem mem_firstOccurrences (l : List String) (s : String) :
    s ∈ firstOccurrences l ↔ s ∈ l := by
  induction l with
  | nil => simp [firstOccurrences]
  | cons x xs ih =>
    by_cases h : s = x
    · simp [firstOccurrences, h]
    · simp [firstOccurrences, h, ih]

theorem firstOccurrences_nodup (l : List String) : (firstOccurrences l).Nodup := by
  induction l with
  | nil => simp [firstOccurrences]
  | cons x xs ih =>
    simp only [firstOccurrences, List.nodup_cons]
    exact ⟨by simp, ih.filter _⟩

theorem firstOccurrences_sublist (l : List String) : (firstOccurrences l).Sublist l := by
  induction l with
  | nil => simp [firstOccurrences]
  | cons x xs ih =>
    simp only [firstOccurrences]
    exact ((List.filter_sublist _).trans ih).cons₂ x

theorem firstOccurrences_of_nodup (l : List String) (h : l.Nodup) : firstOccurrences l = l := by
  induction l with
  | nil => rfl
  | cons x xs ih =>
    rw [List.nodup_cons] at h
    simp only [firstOccurrences, ih h.2, List.cons.injEq, true_and]
    rw [List.filter_eq_self]
    intro a ha
    have : a ≠ x := fun e => h.1 (e ▸ ha)
    simpa using this

theorem eraseDups_loop_eq (l bs : List String) :
    List.eraseDups.loop l bs =
      bs.reverse ++ (firstOccurrences l).filter (fun y => decide (y ∉ bs)) := by
  induction l generalizing bs with
  | nil => simp [List.eraseDups.loop, firstOccurrences]
  | cons x xs ih =>
    by_cases hx : x ∈ bs
    · have he : bs.elem x = true := by simpa using hx
      simp only [List.eraseDups.loop, he, ih, firstOccurrences, List.filter_cons, hx,
        not_true_eq_false, decide_False, Bool.false_eq_true, if_false, List.filter_filter]
      congr 1
      apply List.filter_congr
      intro y _
      by_cases hy : y = x
      · simp [hy, hx]
      · simp [hy]
    · have he : bs.elem x = false := by simpa using hx
      simp only [List.eraseDups.loop, he, ih, firstOccurrences, List.filter_cons, hx,
        not_false_eq_true, decide_True, if_true, List.filter_filter, List.reverse_cons,
        List.append_assoc, List.singleton_append]
      congr 2
      apply List.filter_congr
      intro y _
      by_cases hy : y = x
      · simp [hy]
      · simp [hy]

/-- The first occurrences as computed by the library function `List.eraseDups`. -/
theorem firstOccurrences_eq_eraseDups (l : List String) :
    firstOccurrences l = l.eraseDups := by
  unfold List.eraseDups
  rw [eraseDups_loop_eq]
  simp

theorem firstOccurrences_example :
    firstOccurrences ["b", "a", "b", "c", "a", "b"] = ["b", "a", "c"] := by decide

theorem mapGet_mapSet (m : List (String × Bool)) (k s : String) :
    mapGet (mapSet m k true) s = (decide (s = k) || mapGet m s) := by
  by_cases h : s = k
  · simp [mapGet, mapSet, List.lookup_cons, h]
  · have hb : (s == k) = false := by simpa using h
    simp [mapGet, mapSet, List.lookup_cons, h, hb]

/-- The loop of `ParseIndividualTools`, started from any state: the names appended to
`valid` and to `invalid` are the first occurrences of the non-blank trimmed names that
the state has not seen yet, split by membership in `validToolNames`. -/
theorem foldl_parseStep (vt : List (String × Bool)) (l : List String) (st : ParseState) :
    (l.foldl (parseStep vt) st).valid = st.valid ++
        (firstOccurrences (nonBlankNames l)).filter
          (fun s => !mapGet st.seen s && mapGet vt s) ∧
    (l.foldl (parseStep vt) st).invalid = st.invalid ++
        (firstOccurrences (nonBlankNames l)).filter
          (fun s => !mapGet st.seen s && !mapGet vt s) := by
  induction l generalizing st with
  | nil => simp [nonBlankNames, firstOccurrences]
  | cons x xs ih =>
    rw [List.foldl_cons]
    obtain ⟨ihv, ihi⟩ := ih (parseStep vt st x)
    rw [ihv, ihi]
    by_cases hblank : TrimSpace x = ""
    · have hstep : parseStep vt st x = st := by simp [parseStep, hblank]
      have hnb : nonBlankNames (x :: xs) = nonBlankNames xs := by
        simp [nonBlankNames, hblank]
      rw [hstep, hnb]
      exact ⟨rfl, rfl⟩
    · have hnb : nonBlankNames (x :: xs) = TrimSpace x :: nonBlankNames xs := by
        simp [nonBlankNames, hblank]
      rw [hnb]
      simp only [firstOccurrences, List.filter_filter]
      by_cases hseen : mapGet st.seen (TrimSpace x) = true
      · have hstep : parseStep vt st x = st := by simp [parseStep, hblank, hseen]
        rw [hstep]
        simp only [List.filter_cons, hseen, Bool.not_true, Bool.false_and, Bool.false_eq_true,
          if_false, List.filter_filter]
        constructor <;>
        · congr 1
          apply List.filter_congr
          intro s _
          by_cases hs : s = TrimSpace x
          · simp [hs, hseen]
          · simp [hs]
      · have hseen' : mapGet st.seen (TrimSpace x) = false := by simpa using hseen
        by_cases hvalid : mapGet vt (TrimSpace x) = true
        · have hstep : parseStep vt st x =
              { seen := mapSet st.seen (TrimSpace x) true,
                valid := st.valid ++ [TrimSpace x], invalid := st.invalid } := by
            simp [parseStep, hblank, hseen', hvalid]
          rw [hstep]
          simp only [List.filter_cons, hseen', hvalid, Bool.not_false, Bool.true_and,
            Bool.not_true, Bool.and_false, Bool.false_eq_true, if_true, if_false,
            List.filter_filter, List.append_assoc, List.singleton_append, mapGet_mapSet]
          constructor
          · congr 2
            apply List.filter_congr
            intro s _
            by_cases hs : s = TrimSpace x <;> simp [hs]
          · congr 1
            apply List.filter_congr
            intro s _
            by_cases hs : s = TrimSpace x <;> simp [hs, hvalid]
        · have hvalid' : mapGet vt (TrimSpace x) = false := by simpa using hvalid
          have hstep : parseStep vt st x =
              { seen := mapSet st.seen (TrimSpace x) true,
                valid := st.valid, invalid := st.invalid ++ [TrimSpace x] } := by
            simp [parseStep, hblank, hseen', hvalid']
          rw [hstep]
          simp only [List.filter_cons, hseen', hvalid', Bool.not_false, Bool.true_and,
            Bool.and_false, Bool.and_true, Bool.false_eq_true, if_true, if_false,
            List.filter_filter, List.append_assoc, List.singleton_append, mapGet_mapSet]
          constructor
          · congr 1
            apply List.filter_congr
            intro s _
            by_cases hs : s = TrimSpace x <;> simp [hs, hvalid']
          · congr 2
            apply List.filter_congr
            intro s _
            by_cases hs : s = TrimSpace x <;> simp [hs]

theorem ParseIndividualTools_eq_spec (c : Constants) (rawNames : List String) :
    ParseIndividualTools c rawNames = parseToolNamesSpec c rawNames := by
  obtain ⟨hv, hi⟩ := foldl_parseStep (GetAllValidToolNames c) rawNames
    { seen := [], valid := [], invalid := [] }
  unfold ParseIndividualTools parseToolNamesSpec normalizedNames
  simp only [hv, hi, List.nil_append]
  congr 1
  · apply List.filter_congr
    intro s _
    have h := mapGet_GetAllValidToolNames c s
    have h0 : mapGet ([] : List (String × Bool)) s = false := rfl
    by_cases hk : s ∈ toolNames c
    · simp [h0, hk, h.2 hk]
    · have hf : mapGet (GetAllValidToolNames c) s = false := by
        cases hb : mapGet (GetAllValidToolNames c) s with
        | false => rfl
        | true => exact absurd (h.1 hb) hk
      simp [h0, hk, hf]
  · apply List.filter_congr
    intro s _
    have h := mapGet_GetAllValidToolNames c s
    have h0 : mapGet ([] : List (String × Bool)) s = false := rfl
    by_cases hk : s ∈ toolNames c
    · simp [h0, hk, h.2 hk]
    · have hf : mapGet (GetAllValidToolNames c) s = false := by
        cases hb : mapGet (GetAllValidToolNames c) s with
        | false => rfl
        | true => exact absurd (h.1 hb) hk
      simp [h0, hk, hf]

theorem mem_normalizedNames (rawNames : List String) (s : String) :
    s ∈ normalizedNames rawNames ↔ s ≠ "" ∧ ∃ r ∈ rawNames, TrimSpace r = s := by
  unfold normalizedNames nonBlankNames
  rw [mem_firstOccurrences]
  simp only [List.mem_filter, List.mem_map, decide_eq_true_eq]
  tauto

theorem mem_valid_iff (c : Constants) (rawNames : List String) (s : String) :
    s ∈ (ParseIndividualTools c rawNames).1 ↔
      s ∈ toolNames c ∧ s ≠ "" ∧ ∃ r ∈ rawNames, TrimSpace r = s := by
  rw [ParseIndividualTools_eq_spec]
  simp only [parseToolNamesSpec, List.mem_filter, decide_eq_true_eq, mem_normalizedNames]
  tauto

theorem mem_invalid_iff (c : Constants) (rawNames : List String) (s : String) :
    s ∈ (ParseIndividualTools c rawNames).2 ↔
      s ∉ toolNames c ∧ s ≠ "" ∧ ∃ r ∈ rawNames, TrimSpace r = s := by
  rw [ParseIndividualTools_eq_spec]
  simp only [parseToolNamesSpec, List.mem_filter, decide_eq_true_eq, mem_normalizedNames]
  tauto

theorem TrimSpace_of_mem_normalizedNames (rawNames : List String) (s : String)
    (h : s ∈ normalizedNames rawNames) : TrimSpace s = s := by
  obtain ⟨_, r, _, hr⟩ := (mem_normalizedNames rawNames s).1 h
  rw [← hr, TrimSpace_idempotent]

theorem length_normalizedNames_le (rawNames : List String) :
    (normalizedNames rawNames).length ≤
      (rawNames.filter (fun r => decide (TrimSpace r ≠ ""))).length := by
  have h1 : (normalizedNames rawNames).length ≤ (nonBlankNames rawNames).length :=
    (firstOccurrences_sublist _).length_le
  have h2 : (nonBlankNames rawNames).length =
      (rawNames.filter (fun r => decide (TrimSpace r ≠ ""))).length := by
    unfold nonBlankNames
    rw [List.filter_map, List.length_map]
    rfl
  omega

theorem length_filter_split (l : List String) (p : String → Prop) [DecidablePred p] :
    (l.filter (fun s => decide (p s))).length + (l.filter (fun s => decide (¬ p s))).length
      = l.length := by
  induction l with
  | nil => rfl
  | cons x xs ih =>
    by_cases h : p x
    · simp only [List.filter_cons, h, decide_True, decide_False, not_true_eq_false, if_true,
        List.length_cons, Bool.false_eq_true, if_false]
      omega
    · simp only [List.filter_cons, h, decide_True, decide_False, not_false_eq_true, if_true,
        List.length_cons, Bool.false_eq_true, if_false]
      omega

theorem toolNames_eq (c : Constants) : toolNames c = toolNames sampleConstants := rfl

theorem parseToolNamesSpec_eq (c : Constants) (rawNames : List String) :
    parseToolNamesSpec c rawNames = parseToolNamesSpec sampleConstants rawNames := by
  unfold parseToolNamesSpec
  rw [toolNames_eq c]

/-! ## The individual-tool selector -/

/-- C4: `ParseIndividualTools rawNames` is `(valid, invalid)` where, with `D` the raw names
trimmed of surrounding white space, without the empty results and with only the first
occurrence of each name kept, `valid` is the sub-list of `D` of the keys of `ToolToToolset`
and `invalid` the sub-list of `D` of the other names, both in the order of `D`; on
`["list_runs", " ", "list_runs", "not_a_tool"]` it yields `(["list_runs"], ["not_a_tool"])`. -/
theorem ParseIndividualTools_spec (c : Constants) (rawNames : List String) :
    ParseIndividualTools c rawNames =
      ((firstOccurrences ((rawNames.map TrimSpace).filter (fun s => decide (s ≠ "")))).filter
          (fun s => decide (s ∈ (ToolToToolset c).map Prod.fst)),
       (firstOccurrences ((rawNames.map TrimSpace).filter (fun s => decide (s ≠ "")))).filter
          (fun s => decide (s ∉ (ToolToToolset c).map Prod.fst))) ∧
    ParseIndividualTools c ["list_runs", " ", "list_runs", "not_a_tool"] =
      (["list_runs"], ["not_a_tool"]) := by
  constructor
  · exact ParseIndividualTools_eq_spec c rawNames
  · rw [ParseIndividualTools_eq_spec, parseToolNamesSpec_eq]
    decide

/-- C5: with `ParseIndividualTools rawNames = (valid, invalid)`, no string is in both
`valid` and `invalid`; a string is in one of them exactly when it is non-empty and is the
trimmed form of some raw name; so each raw name that is non-empty after trimming has its
trimmed form in exactly one of the two outputs. -/
theorem ParseIndividualTools_partition (c : Constants) (rawNames : List String) :
    (∀ s, ¬ (s ∈ (ParseIndividualTools c rawNames).1 ∧
        s ∈ (ParseIndividualTools c rawNames).2)) ∧
    (∀ s, (s ∈ (ParseIndividualTools c rawNames).1 ∨ s ∈ (ParseIndividualTools c rawNames).2) ↔
        (s ≠ "" ∧ ∃ r ∈ rawNames, TrimSpace r = s)) ∧
    (∀ r ∈ rawNames, TrimSpace r ≠ "" →
        Xor' (TrimSpace r ∈ (ParseIndividualTools c rawNames).1)
          (TrimSpace r ∈ (ParseIndividualTools c rawNames).2)) := by
  refine ⟨?_, ?_, ?_⟩
  · intro s h
    exact ((mem_invalid_iff c rawNames s).1 h.2).1 ((mem_valid_iff c rawNames s).1 h.1).1
  · intro s
    rw [mem_valid_iff, mem_invalid_iff]
    constructor
    · rintro (⟨_, h⟩ | ⟨_, h⟩) <;> exact h
    · intro h
      by_cases hk : s ∈ toolNames c
      · exact Or.inl ⟨hk, h⟩
      · exact Or.inr ⟨hk, h⟩
  · intro r hr hne
    have hin : TrimSpace r ≠ "" ∧ ∃ r' ∈ rawNames, TrimSpace r' = TrimSpace r :=
      ⟨hne, r, hr, rfl⟩
    unfold Xor'
    rw [mem_valid_iff, mem_invalid_iff]
    by_cases hk : TrimSpace r ∈ toolNames c
    · exact Or.inl ⟨⟨hk, hin⟩, fun h => h.1 hk⟩
    · exact Or.inr ⟨⟨hk, hin⟩, fun h => hk h.1⟩

theorem ParseIndividualTools_partition_witness :
    Xor' (TrimSpace " list_runs " ∈
        (ParseIndividualTools sampleConstants ["x", " list_runs ", " ", "x"]).1)
      (TrimSpace " list_runs " ∈
        (ParseIndividualTools sampleConstants ["x", " list_runs ", " ", "x"]).2) :=
  (ParseIndividualTools_partition sampleConstants ["x", " list_runs ", " ", "x"]).2.2
    " list_runs " (by decide) (by decide)

/-- C6: with `ParseIndividualTools rawNames = (valid, invalid)`, the list
`valid ++ invalid` holds no string twice and no empty or white-space-only string, and
the two lengths add up to at most the number of raw names that are not blank after
trimming. -/
theorem ParseIndividualTools_no_duplicates_no_blanks (c : Constants) (rawNames : List String) :
    ((ParseIndividualTools c rawNames).1 ++ (ParseIndividualTools c rawNames).2).Nodup ∧
    (∀ s ∈ (ParseIndividualTools c rawNames).1 ++ (ParseIndividualTools c rawNames).2,
        s ≠ "" ∧ TrimSpace s ≠ "" ∧ ∃ ch ∈ s.data, isSpace ch = false) ∧
    (ParseIndividualTools c rawNames).1.length + (ParseIndividualTools c rawNames).2.length ≤
      (rawNames.filter (fun r => decide (TrimSpace r ≠ ""))).length := by
  refine ⟨?_, ?_, ?_⟩
  · rw [List.nodup_append]
    refine ⟨?_, ?_, ?_⟩
    · rw [ParseIndividualTools_eq_spec]
      exact (firstOccurrences_nodup _).filter _
    · rw [ParseIndividualTools_eq_spec]
      exact (firstOccurrences_nodup _).filter _
    · intro s h1 h2
      exact ((mem_invalid_iff c rawNames s).1 h2).1 ((mem_valid_iff c rawNames s).1 h1).1
  · intro s hs
    have hD : s ∈ normalizedNames rawNames := by
      rw [ParseIndividualTools_eq_spec] at hs
      simp only [parseToolNamesSpec, List.mem_append, List.mem_filter] at hs
      tauto
    have hne : s ≠ "" := ((mem_normalizedNames rawNames s).1 hD).1
    have htrim : TrimSpace s = s := TrimSpace_of_mem_normalizedNames rawNames s hD
    have hne' : TrimSpace s ≠ "" := by rw [htrim]; exact hne
    refine ⟨hne, hne', ?_⟩
    have h := TrimSpace_has_nonspace s hne'
    rw [htrim] at h
    exact h
  · have hsplit := length_filter_split (normalizedNames rawNames) (fun s => s ∈ toolNames c)
    have hle := length_normalizedNames_le rawNames
    rw [ParseIndividualTools_eq_spec]
    simp only [parseToolNamesSpec]
    omega

theorem ParseIndividualTools_no_duplicates_no_blanks_witness :
    (∀ s ∈ (ParseIndividualTools sampleConstants ["x", " list_runs ", " ", "x"]).1 ++
        (ParseIndividualTools sampleConstants ["x", " list_runs ", " ", "x"]).2,
      s ≠ "" ∧ TrimSpace s ≠ "" ∧ ∃ ch ∈ s.data, isSpace ch = false) ∧
    (ParseIndividualTools sampleConstants ["x", " list_runs ", " ", "x"]).1 ++
        (ParseIndividualTools sampleConstants ["x", " list_runs ", " ", "x"]).2
      = ["list_runs", "x"] ∧
    (["x", " list_runs ", " ", "x"].filter (fun r => decide (TrimSpace r ≠ ""))).length = 3 :=
  ⟨(ParseIndividualTools_no_duplicates_no_blanks sampleConstants
      ["x", " list_runs ", " ", "x"]).2.1, by decide, by decide⟩

/-- C7: `ParseIndividualTools` is idempotent on its valid output: parsing the valid list
again returns that list as valid and an empty invalid list. -/
theorem ParseIndividualTools_idempotent (c : Constants) (rawNames : List String) :
    ParseIndividualTools c (ParseIndividualTools c rawNames).1 =
      ((ParseIndividualTools c rawNames).1, []) := by
  have hmem : ∀ s ∈ (ParseIndividualTools c rawNames).1,
      s ∈ toolNames c ∧ s ≠ "" ∧ TrimSpace s = s := by
    intro s hs
    obtain ⟨hk, hne, r, _, hr⟩ := (mem_valid_iff c rawNames s).1 hs
    exact ⟨hk, hne, by rw [← hr, TrimSpace_idempotent]⟩
  have hnodup : (ParseIndividualTools c rawNames).1.Nodup := by
    rw [ParseIndividualTools_eq_spec]
    exact (firstOccurrences_nodup _).filter _
  generalize (ParseIndividualTools c rawNames).1 = valid at hmem hnodup
  have hmap : valid.map TrimSpace = valid := by
    conv_rhs => rw [← List.map_id valid]
    apply List.map_congr_left
    intro s hs
    exact (hmem s hs).2.2
  have hnb : nonBlankNames valid = valid := by
    unfold nonBlankNames
    rw [hmap, List.filter_eq_self]
    intro s hs
    simpa using (hmem s hs).2.1
  rw [ParseIndividualTools_eq_spec]
  unfold parseToolNamesSpec normalizedNames
  rw [hnb, firstOccurrences_of_nodup valid hnodup]
  congr 1
  · rw [List.filter_eq_self]
    intro s hs
    simpa using (hmem s hs).1
  · rw [List.filter_eq_nil_iff]
    intro s hs
    simpa using (hmem s hs).1

/-! ## Individual-tool mode end to end -/

/-- C8: for the valid output of `ParseIndividualTools` and a registered tool name `t`,
`IsToolEnabled t (EnableIndividualTools valid)` is true exactly when `t` is an element of
`valid`, the "all" sentinel and the marker being distinct reserved words that are not
tool names; with the list built from `["get_plan_details"]`, "get_plan_details" is
enabled and "create_run" is not. -/
theorem individual_mode_enables_exactly_selected (c : Constants) (rawNames : List String)
    (t : String) (hAM : c.All ≠ c.individualToolsMarker) (hA : c.All ∉ toolNames c)
    (hM : c.individualToolsMarker ∉ toolNames c) (ht : t ∈ toolNames c) :
    (IsToolEnabled c t (EnableIndividualTools c (ParseIndividualTools c rawNames).1) = true ↔
      t ∈ (ParseIndividualTools c rawNames).1) ∧
    IsToolEnabled c "get_plan_details" (EnableIndividualTools c ["get_plan_details"]) = true ∧
    IsToolEnabled c "create_run" (EnableIndividualTools c ["get_plan_details"]) = false := by
  have hlist : ∀ l, EnableIndividualTools c l = c.individualToolsMarker :: l := by
    intro l; simp [EnableIndividualTools]
  have hkey : ∀ (l : List String) (u : String), (∀ s ∈ l, s ∈ toolNames c) → u ∈ toolNames c →
      (IsToolEnabled c u (EnableIndividualTools c l) = true ↔ u ∈ l) := by
    intro l u hl hu
    rw [hlist, IsToolEnabled_marker c u _ (by simp)]
    · simp only [List.mem_cons]
      constructor
      · rintro (h | h)
        · exact absurd (h ▸ hu) hM
        · exact h
      · exact Or.inr
    · simp only [List.mem_cons, not_or]
      exact ⟨hAM, fun h => hA (hl _ h)⟩
  have hgp : "get_plan_details" ∈ toolNames c := by rw [toolNames_eq]; decide
  have hcr : "create_run" ∈ toolNames c := by rw [toolNames_eq]; decide
  have hsingle : ∀ s ∈ ["get_plan_details"], s ∈ toolNames c := by
    intro s hs
    simp only [List.mem_singleton] at hs
    rw [hs]; exact hgp
  refine ⟨hkey _ t (fun s hs => ((mem_valid_iff c rawNames s).1 hs).1) ht, ?_, ?_⟩
  · exact (hkey _ _ hsingle hgp).2 (by simp)
  · cases hb : IsToolEnabled c "create_run" (EnableIndividualTools c ["get_plan_details"]) with
    | false => rfl
    | true =>
      have h := (hkey _ _ hsingle hcr).1 hb
      exact absurd h (by decide)

theorem individual_mode_enables_exactly_selected_witness :
    (IsToolEnabled sampleConstants "list_runs"
        (EnableIndividualTools sampleConstants
          (ParseIndividualTools sampleConstants [" list_runs", "bogus", "create_run"]).1) = true ↔
      "list_runs" ∈
        (ParseIndividualTools sampleConstants [" list_runs", "bogus", "create_run"]).1) ∧
    IsToolEnabled sampleConstants "get_plan_details"
      (EnableIndividualTools sampleConstants ["get_plan_details"]) = true ∧
    IsToolEnabled sampleConstants "create_run"
      (EnableIndividualTools sampleConstants ["get_plan_details"]) = false :=
  individual_mode_enables_exactly_selected sampleConstants
    [" list_runs", "bogus", "create_run"] "list_runs" (by decide) (by decide) (by decide)
    (by decide)

end Toolsets

namespace Tools

open Mcp

/-! ## Tool metadata -/

/-- C11: `GetApplyLogs` has the name "get_apply_logs" and `GetPlanDetails` the name
"get_plan_details"; each has a handler that is not nil, a `ReadOnlyHint` that is set and
true, a `DestructiveHint` that is set and false, and its identifier parameter ("apply_id",
"plan_id") among the required inputs; and each name is a key of `ToolToToolset` mapped to
the Terraform toolset. -/
theorem read_tools_metadata (c : Toolsets.Constants) :
    (GetApplyLogs.Tool.Name = "get_apply_logs" ∧
      GetApplyLogs.Handler.isSome = true ∧
      GetApplyLogs.Tool.Annotations.ReadOnlyHint = some true ∧
      GetApplyLogs.Tool.Annotations.DestructiveHint = some false ∧
      "apply_id" ∈ GetApplyLogs.Tool.InputSchema.Required ∧
      (Toolsets.ToolToToolset c).lookup GetApplyLogs.Tool.Name = some c.Terraform) ∧
    (GetPlanDetails.Tool.Name = "get_plan_details" ∧
      GetPlanDetails.Handler.isSome = true ∧
      GetPlanDetails.Tool.Annotations.ReadOnlyHint = some true ∧
      GetPlanDetails.Tool.Annotations.DestructiveHint = some false ∧
      "plan_id" ∈ GetPlanDetails.Tool.InputSchema.Required ∧
      (Toolsets.ToolToToolset c).lookup GetPlanDetails.Tool.Name = some c.Terraform) := by
  refine ⟨⟨rfl, rfl, rfl, rfl, ?_, ?_⟩, ⟨rfl, rfl, rfl, rfl, ?_, ?_⟩⟩
  · have h : GetApplyLogs.Tool.InputSchema.Required = ["apply_id"] := by decide
    rw [h]; simp
  · have h : GetApplyLogs.Tool.Name = "get_apply_logs" := rfl
    rw [h]
    simp [Toolsets.ToolToToolset, List.lookup]
  · have h : GetPlanDetails.Tool.InputSchema.Required = ["plan_id"] := by decide
    rw [h]; simp
  · have h : GetPlanDetails.Tool.Name = "get_plan_details" := rfl
    rw [h]
    simp [Toolsets.ToolToToolset, List.lookup]

/-! ## The filters of `list_runs` -/

theorem GetString_of_string (r : CallToolRequest) (key d str : String)
    (h : r.Arguments.lookup key = some (Value.string str)) : r.GetString key d = str := by
  simp [CallToolRequest.GetString, h]

theorem GetString_of_array (r : CallToolRequest) (key d : String) (items : List Value)
    (h : r.Arguments.lookup key = some (Value.array items)) : r.GetString key d = d := by
  simp [CallToolRequest.GetString, h]

theorem GetString_of_absent (r : CallToolRequest) (key d : String)
    (h : r.Arguments.lookup key = none) : r.GetString key d = d := by
  simp [CallToolRequest.GetString, h]

/-- The schema that `ListRuns` declares for "status", before the pagination option: an
array whose items are strings of the run-status enum. -/
theorem ListRuns_status_schema :
    ((NewTool "list_runs" listRunsToolOptions).InputSchema.Properties.lookup "status").bind
        (fun schema => schema.lookup "type") = some (Value.string "array") ∧
    ((NewTool "list_runs" listRunsToolOptions).InputSchema.Properties.lookup "vcs_username").bind
        (fun schema => schema.lookup "type") = some (Value.string "string") ∧
    ∀ withPagination : ToolOption,
      (ListRuns withPagination).Tool = withPagination (NewTool "list_runs" listRunsToolOptions) :=
  ⟨rfl, rfl, fun _ => rfl⟩

/-- The remote call of an organization-scoped `list_runs` request: the status and the
user filters are what `GetString` reads from the request. -/
theorem listRunsHandler_organization_calls (ctx : Collaborators) (request : CallToolRequest)
    (org : String) (pagination : PaginationParams)
    (horg : request.RequireString "terraform_org_name" = Except.ok org)
    (hpage : ctx.OptionalPaginationParams request = some pagination)
    (hclient : ctx.clientAvailable = true)
    (hws : request.GetString "workspace_name" "" = "") :
    (listRunsHandler ctx request).calls =
      [RemoteCall.RunsListForOrganization (Toolsets.TrimSpace org)
        { ListOptions := { PageNumber := pagination.Page, PageSize := pagination.PageSize },
          User := request.GetString "vcs_username" "",
          Status := request.GetString "status" "" }] := by
  unfold listRunsHandler
  simp only [horg, hpage, hclient, hws]
  by_cases hs : request.GetString "status" "" = "" <;>
    by_cases hu : request.GetString "vcs_username" "" = "" <;>
    cases hr : ctx.runsListForOrganization (Toolsets.TrimSpace org)
      { ListOptions := { PageNumber := pagination.Page, PageSize := pagination.PageSize },
        User := request.GetString "vcs_username" "",
        Status := request.GetString "status" "" } <;>
    simp_all

/-- The remote calls of a workspace-scoped `list_runs` request whose workspace is found. -/
theorem listRunsHandler_workspace_calls (ctx : Collaborators) (request : CallToolRequest)
    (org workspaceID : String) (pagination : PaginationParams)
    (horg : request.RequireString "terraform_org_name" = Except.ok org)
    (hpage : ctx.OptionalPaginationParams request = some pagination)
    (hclient : ctx.clientAvailable = true)
    (hws : request.GetString "workspace_name" "" ≠ "")
    (hread : ctx.workspacesRead (Toolsets.TrimSpace org)
      (request.GetString "workspace_name" "") = some workspaceID) :
    (listRunsHandler ctx request).calls =
      [RemoteCall.WorkspacesRead (Toolsets.TrimSpace org) (request.GetString "workspace_name" ""),
       RemoteCall.RunsList workspaceID
        { ListOptions := { PageNumber := pagination.Page, PageSize := pagination.PageSize },
          User := request.GetString "vcs_username" "",
          Status := request.GetString "status" "" }] := by
  unfold listRunsHandler
  simp only [horg, hpage, hclient, hws, hread]
  by_cases hs : request.GetString "status" "" = "" <;>
    by_cases hu : request.GetString "vcs_username" "" = "" <;>
    cases hr : ctx.runsList workspaceID
      { ListOptions := { PageNumber := pagination.Page, PageSize := pagination.PageSize },
        User := request.GetString "vcs_username" "",
        Status := request.GetString "status" "" } <;>
    simp_all

/-- Every call that lists runs carries, as status and user filters, what `GetString`
reads from the request. -/
theorem listRunsHandler_filters (ctx : Collaborators) (request : CallToolRequest)
    (call : RemoteCall) (hcall : call ∈ (listRunsHandler ctx request).calls) :
    (∀ st, call.listStatus = some st → st = request.GetString "status" "") ∧
    (∀ u, call.listUser = some u → u = request.GetString "vcs_username" "") := by
  cases horg : request.RequireString "terraform_org_name" with
  | error e =>
    have hc : (listRunsHandler ctx request).calls = [] := by
      unfold listRunsHandler; simp [horg]
    simp [hc] at hcall
  | ok org =>
    cases hpage : ctx.OptionalPaginationParams request with
    | none =>
      have hc : (listRunsHandler ctx request).calls = [] := by
        unfold listRunsHandler; simp [horg, hpage]
      simp [hc] at hcall
    | some pagination =>
      cases hclient : ctx.clientAvailable with
      | false =>
        have hc : (listRunsHandler ctx request).calls = [] := by
          unfold listRunsHandler; simp [horg, hpage, hclient]
        simp [hc] at hcall
      | true =>
        by_cases hws : request.GetString "workspace_name" "" = ""
        · rw [listRunsHandler_organization_calls ctx request org pagination horg hpage hclient
            hws] at hcall
          simp only [List.mem_singleton] at hcall
          subst hcall
          simp [RemoteCall.listStatus, RemoteCall.listUser]
        · cases hread : ctx.workspacesRead (Toolsets.TrimSpace org)
              (request.GetString "workspace_name" "") with
          | none =>
            have hc : (listRunsHandler ctx request).calls =
                [RemoteCall.WorkspacesRead (Toolsets.TrimSpace org)
                  (request.GetString "workspace_name" "")] := by
              unfold listRunsHandler; simp [horg, hpage, hclient, hws, hread]
            rw [hc] at hcall
            simp only [List.mem_singleton] at hcall
            subst hcall
            simp [RemoteCall.listStatus, RemoteCall.listUser]
          | some workspaceID =>
            rw [listRunsHandler_workspace_calls ctx request org workspaceID pagination horg
              hpage hclient hws hread] at hcall
            simp only [List.mem_cons, List.mem_singleton, List.not_mem_nil, or_false] at hcall
            rcases hcall with hcall | hcall <;> subst hcall <;>
              simp [RemoteCall.listStatus, RemoteCall.listUser]

/-- A status supplied as an array, the shape the schema of `list_runs` declares, reaches
no call: every call that lists runs has the empty `Status`. -/
theorem listRunsHandler_array_status_empty (ctx : Collaborators) (request : CallToolRequest)
    (items : List Value) (h : request.Arguments.lookup "status" = some (Value.array items))
    (call : RemoteCall) (hcall : call ∈ (listRunsHandler ctx request).calls) (st : String)
    (hst : call.listStatus = some st) : st = "" := by
  rw [(listRunsHandler_filters ctx request call hcall).1 st hst]
  exact GetString_of_array request "status" "" items h

/-- A status supplied as a string and a "vcs_username" supplied as a string are handed to
every call that lists runs. -/
theorem listRunsHandler_string_filters (ctx : Collaborators) (request : CallToolRequest)
    (call : RemoteCall) (hcall : call ∈ (listRunsHandler ctx request).calls) :
    (∀ s, request.Arguments.lookup "status" = some (Value.string s) →
      ∀ st, call.listStatus = some st → st = s) ∧
    (∀ name, request.Arguments.lookup "vcs_username" = some (Value.string name) →
      ∀ u, call.listUser = some u → u = name) := by
  obtain ⟨h1, h2⟩ := listRunsHandler_filters ctx request call hcall
  constructor
  · intro s hs st hst
    rw [h1 st hst]
    exact GetString_of_string request "status" "" s hs
  · intro name hn u hu
    rw [h2 u hu]
    exact GetString_of_string request "vcs_username" "" name hn

/-- C12, evaluated on requests that supply `status` as the array `["applied"]` together
with the "vcs_username" `alice`: the organization-scoped call
and the workspace-scoped call both receive `User = "alice"` and the empty `Status`, so
the status filter is not passed to the remote list operation; the same status supplied
as the string `applied` is passed. -/
theorem listRunsHandler_array_status_not_passed :
    (listRunsHandler sampleCollaborators
        { Arguments := [("terraform_org_name", Value.string "my-org"),
                        ("status", Value.array [Value.string "applied"]),
                        ("vcs_username", Value.string "alice")] }).calls =
      [RemoteCall.RunsListForOrganization "my-org"
        { ListOptions := { PageNumber := 0, PageSize := 0 }, User := "alice", Status := "" }] ∧
    (listRunsHandler sampleCollaborators
        { Arguments := [("terraform_org_name", Value.string "my-org"),
                        ("workspace_name", Value.string "app"),
                        ("status", Value.array [Value.string "applied"]),
                        ("vcs_username", Value.string "alice")] }).calls =
      [RemoteCall.WorkspacesRead "my-org" "app",
       RemoteCall.RunsList "ws-app"
        { ListOptions := { PageNumber := 0, PageSize := 0 }, User := "alice", Status := "" }] ∧
    (listRunsHandler sampleCollaborators
        { Arguments := [("terraform_org_name", Value.string "my-org"),
                        ("status", Value.string "applied"),
                        ("vcs_username", Value.string "alice")] }).calls =
      [RemoteCall.RunsListForOrganization "my-org"
        { ListOptions := { PageNumber := 0, PageSize := 0 }, User := "alice",
          Status := "applied" }] := by
  refine ⟨?_, ?_, ?_⟩ <;> decide

end Tools
